import Mathlib

/-!
Verification of the rectangle-cutting core of pamcut (src/editor/pamcut.c),
shallowly embedded: machine ints become Int (the program range-checks its own
arithmetic, and every claim is settled inside the int range), failure becomes
Option/Except, and the row streaming of the two extraction paths becomes an
explicit event trace of reads and writes.
-/

namespace Pamcut

/-- The UNSPEC sentinel of pamcut.c: INT_MAX, standing for an argument the
user did not specify. -/
def UNSPEC : Int := 2147483647

/-- INT_MAX of the 32-bit int type the program is compiled with. -/
def INT_MAX : Int := 2147483647

/-- The MAX macro of pm_c_util.h. -/
def cMax (a b : Int) : Int := if a > b then a else b

/-- The MIN macro of pm_c_util.h. -/
def cMin (a b : Int) : Int := if a < b then a else b

/-- The resolved cut rectangle: inclusive bounds in image coordinates. -/
structure Rectangle where
  leftcol : Int
  rightcol : Int
  toprow : Int
  bottomrow : Int
deriving DecidableEq, Repr

/-- The two pm_error calls of computeCutBounds: an axis with all three of
edge/edge/size specified. -/
inductive AxisError where
  | overspecHoriz
  | overspecVert
deriving DecidableEq, Repr

/-- The horizontal half of computeCutBounds: normalize negative left/right
arguments to cols + arg, then the 8-way case analysis over which of
left/right/width are UNSPEC (pamcut.c lines 183-233).  none is the
"may not specify left, right, and width" error. -/
def cutBoundsHoriz (cols leftarg rightarg widtharg : Int) : Option (Int × Int) :=
  let leftcol := if leftarg ≥ 0 then leftarg else cols + leftarg
  let rightcol := if rightarg ≥ 0 then rightarg else cols + rightarg
  if leftcol = UNSPEC then
    if rightcol = UNSPEC then
      if widtharg = UNSPEC then some (0, cols - 1)
      else some (0, 0 + widtharg - 1)
    else
      if widtharg = UNSPEC then some (0, rightcol)
      else some (rightcol - widtharg + 1, rightcol)
  else
    if rightcol = UNSPEC then
      if widtharg = UNSPEC then some (leftcol, cols - 1)
      else some (leftcol, leftcol + widtharg - 1)
    else
      if widtharg = UNSPEC then some (leftcol, rightcol)
      else none

/-- The vertical half of computeCutBounds (pamcut.c lines 191-269), the same
case structure over top/bottom/height with rows in place of cols. -/
def cutBoundsVert (rows toparg bottomarg heightarg : Int) : Option (Int × Int) :=
  let toprow := if toparg ≥ 0 then toparg else rows + toparg
  let bottomrow := if bottomarg ≥ 0 then bottomarg else rows + bottomarg
  if toprow = UNSPEC then
    if bottomrow = UNSPEC then
      if heightarg = UNSPEC then some (0, rows - 1)
      else some (0, 0 + heightarg - 1)
    else
      if heightarg = UNSPEC then some (0, bottomrow)
      else some (bottomrow - heightarg + 1, bottomrow)
  else
    if bottomrow = UNSPEC then
      if heightarg = UNSPEC then some (toprow, rows - 1)
      else some (toprow, toprow + heightarg - 1)
    else
      if heightarg = UNSPEC then some (toprow, bottomrow)
      else none

/-- computeCutBounds of pamcut.c: resolve the six user arguments against the
image dimensions into a rectangle; the horizontal error fires first, as the
horizontal block of the C function precedes the vertical one. -/
def computeCutBounds (cols rows leftarg rightarg toparg bottomarg widtharg heightarg : Int) :
    Except AxisError Rectangle :=
  match cutBoundsHoriz cols leftarg rightarg widtharg with
  | none => .error .overspecHoriz
  | some (leftcol, rightcol) =>
    match cutBoundsVert rows toparg bottomarg heightarg with
    | none => .error .overspecVert
    | some (toprow, bottomrow) => .ok ⟨leftcol, rightcol, toprow, bottomrow⟩

/-- The pm_error calls of rejectOutOfBounds, in source order. -/
inductive CheckError where
  | leftBeyondLeft
  | leftBeyondRight
  | rightBeyondLeft
  | rightBeyondRight
  | topAboveTop
  | topBelowBottom
  | bottomAboveTop
  | bottomBelowBottom
  | leftRightInverted
  | topBottomInverted
deriving DecidableEq, Repr

/-- Whether a CheckError is one of the eight out-of-bounds diagnostics
(as opposed to one of the two inverted-rectangle diagnostics). -/
def CheckError.isOutOfBounds : CheckError → Bool
  | .leftRightInverted => false
  | .topBottomInverted => false
  | _ => true

/-- Whether a CheckError is an inverted-rectangle diagnostic. -/
def CheckError.isInverted : CheckError → Bool
  | .leftRightInverted => true
  | .topBottomInverted => true
  | _ => false

/-- rejectOutOfBounds of pamcut.c: pm_error terminates the process, so the
sequential checks amount to reporting the first failing check; the eight
bounds checks run only without -pad, the two inverted checks always. -/
def rejectOutOfBounds (cols rows leftcol rightcol toprow bottomrow : Int) (pad : Bool) :
    Option CheckError :=
  if pad = false ∧ leftcol < 0 then some .leftBeyondLeft
  else if pad = false ∧ leftcol > cols - 1 then some .leftBeyondRight
  else if pad = false ∧ rightcol < 0 then some .rightBeyondLeft
  else if pad = false ∧ rightcol > cols - 1 then some .rightBeyondRight
  else if pad = false ∧ toprow < 0 then some .topAboveTop
  else if pad = false ∧ toprow > rows - 1 then some .topBelowBottom
  else if pad = false ∧ bottomrow < 0 then some .bottomAboveTop
  else if pad = false ∧ bottomrow > rows - 1 then some .bottomBelowBottom
  else if leftcol > rightcol then some .leftRightInverted
  else if toprow > bottomrow then some .topBottomInverted
  else none

/-- The rectangle specification part of struct CmdlineInfo. -/
structure CmdlineRect where
  left : Int
  right : Int
  top : Int
  bottom : Int
  width : Int
  height : Int
deriving DecidableEq, Repr

/-- The legacy 4/5-argument positional form of parseCommandLine (pamcut.c
lines 111-137): the 3rd argument warg and 4th argument harg are interpreted
as width/height when positive and as right/bottom offsets otherwise. -/
def parseLegacyArgs (leftArg topArg warg harg : Int) : CmdlineRect :=
  { left := leftArg
    top := topArg
    width := if warg > 0 then warg else UNSPEC
    right := if warg > 0 then UNSPEC else warg - 1
    height := if harg > 0 then harg else UNSPEC
    bottom := if harg > 0 then UNSPEC else harg - 1 }

/-- The option-parse step for one of the six numeric options (pamcut.c lines
79-84): the default UNSPEC, overwritten by the user-supplied value when there
is one. -/
def optValue (supplied : Option Int) : Int := supplied.getD UNSPEC

/-- The width field cutOneImage gives the output header. -/
def outpamWidth (leftcol rightcol : Int) : Int := rightcol - leftcol + 1

/-- The height field cutOneImage gives the output header. -/
def outpamHeight (toprow bottomrow : Int) : Int := bottomrow - toprow + 1

/-- One I/O event of an extraction pass: reading one input row (discarded
when it lands in the NULL destination) or writing one output row.  A written
row is outputWidth cells; a cell is none when the program would emit an
uninitialized value. -/
inductive Ev (α : Type) where
  | read (idx : Int) (discarded : Bool)
  | write (row : List (Option α))
deriving DecidableEq, Repr

/-- The rows a trace writes, in order. -/
def writesOf {α : Type} : List (Ev α) → List (List (Option α))
  | [] => []
  | .write r :: es => r :: writesOf es
  | .read _ _ :: es => writesOf es

/-- The input-row reads a trace performs, in order. -/
def readsOf {α : Type} : List (Ev α) → List Int
  | [] => []
  | .read i _ :: es => i :: readsOf es
  | .write _ :: es => readsOf es

/-- What an entry of the rowCutter outputPointers array aliases: the shared
black tuple, the copy tuple that input column col also aliases, or nothing
(the C array cell was never assigned). -/
inductive OutSlot where
  | blackFill
  | copy (col : Int)
  | unassigned
deriving DecidableEq, Repr

/-- What an entry of the rowCutter inputPointers array aliases: the shared
discard tuple, the copy tuple that output column outcol also aliases, or
nothing. -/
inductive InSlot where
  | discard
  | copyTo (outcol : Int)
  | unassigned
deriving DecidableEq, Repr

/-- The outputPointers array built by createRowCutter (pamcut.c lines
441-459), as a function of the output column index o.  The three branches
are the left-padding loop, the extracted-columns loop and the right-padding
loop; the loops assign disjoint cells, so the branch order is immaterial. -/
def outputPointers (inWidth outWidth leftcol rightcol : Int) (o : Int) : OutSlot :=
  let col := leftcol + o
  if leftcol ≤ col ∧ col < 0 ∧ o < outWidth then .blackFill
  else if cMax leftcol 0 ≤ col ∧ col ≤ cMin rightcol (inWidth - 1) then .copy col
  else if cMin rightcol (inWidth - 1) + 1 ≤ col ∧ col ≤ rightcol ∧ 0 ≤ o then .blackFill
  else .unassigned

/-- The inputPointers array built by createRowCutter (pamcut.c lines 446-467),
as a function of the input column index col: the extracted-columns loop and
the two discard loops. -/
def inputPointers (inWidth leftcol rightcol : Int) (col : Int) : InSlot :=
  if cMax leftcol 0 ≤ col ∧ col ≤ cMin rightcol (inWidth - 1) then .copyTo (col - leftcol)
  else if 0 ≤ col ∧ col < cMin leftcol inWidth then .discard
  else if cMax 0 (rightcol + 1) ≤ col ∧ col < inWidth then .discard
  else .unassigned

/-- The output row the general path emits for one input row: one
pnm_readpamrow through inputPointers followed by one pnm_writepamrow of
outputPointers, so output cell o carries the input pixel its copy tuple
received, the black tuple, or garbage for an unassigned cell. -/
def outRowGen {α : Type} (black : α) (inWidth outWidth leftcol rightcol : Int)
    (row : Int → α) : List (Option α) :=
  (List.range outWidth.toNat).map fun (o : Nat) =>
    match outputPointers inWidth outWidth leftcol rightcol (o : Int) with
    | .blackFill => some black
    | .copy col => some (row col)
    | .unassigned => none

/-- A row of width black pixels, as built by writeBlackRows. -/
def blackRow {α : Type} (black : α) (width : Int) : List (Option α) :=
  List.replicate width.toNat (some black)

/-- writeBlackRows of pamcut.c: n rows of black tuples of the output width. -/
def writeBlackRows {α : Type} (black : α) (width n : Int) : List (Ev α) :=
  List.replicate n.toNat (Ev.write (blackRow black width))

/-- The row loop of extractRowsGen (pamcut.c lines 516-527): each input row
is read exactly once; a row inside [toprow, bottomrow] is read into the
cutter and written out, any other row is read into NULL and discarded. -/
def genLoop {α : Type} (black : α) (inWidth outWidth leftcol rightcol toprow bottomrow : Int)
    (img : Int → Int → α) : List Nat → List (Ev α)
  | [] => []
  | r :: rest =>
      (if toprow ≤ (r : Int) ∧ (r : Int) ≤ bottomrow then
        [Ev.read (r : Int) false,
         Ev.write (outRowGen black inWidth outWidth leftcol rightcol (img (r : Int)))]
      else [Ev.read (r : Int) true])
      ++ genLoop black inWidth outWidth leftcol rightcol toprow bottomrow img rest

/-- extractRowsGen of pamcut.c as an event trace: top black padding, the row
loop over all height input rows, bottom black padding. -/
def extractRowsGen {α : Type} (black : α)
    (inWidth height leftcol rightcol toprow bottomrow outWidth : Int)
    (img : Int → Int → α) : List (Ev α) :=
  (if 0 - toprow > 0 then writeBlackRows black outWidth (0 - toprow) else [])
  ++ genLoop black inWidth outWidth leftcol rightcol toprow bottomrow img
       (List.range height.toNat)
  ++ (if bottomrow - (height - 1) > 0 then
        writeBlackRows black outWidth (bottomrow - (height - 1)) else [])

/-- pbm_packed_bytes of pbm.h: bytes of a packed row of cols bits. -/
def pbmPackedBytes (cols : Int) : Int := (cols + 7) / 8

/-- makeBlackPBMRow of pamcut.c at the level of bits, true meaning a black
bit: the first pbm_packed_bytes cols bytes are set to 0xff and the last
partial byte is then shifted left by 8 - cols % 8, so bits 0..cols-1 are
black, the remaining bits of the last touched byte are white, and bits
beyond that byte keep their previous contents. -/
def makeBlackPBMRow (bitrow : Int → Option Bool) (cols : Int) : Int → Option Bool :=
  fun i =>
    if 0 ≤ i ∧ i < cols then some true
    else if cols ≤ i ∧ i < 8 * pbmPackedBytes cols then some false
    else bitrow i

/-- Modelled from the spec: the raster library primitive
readPackedRow/pbm_readpbmrow_bitoffset (spec section 6), which consumes one
encoded input row and deposits its width bits into the packed buffer at the
given bit offset, leaving the rest of the buffer as it was. -/
def readPackedRow (bitrow : Int → Option Bool) (row : Int → Bool) (width offset : Int) :
    Int → Option Bool :=
  fun i => if offset ≤ i ∧ i < offset + width then some (row (i - offset)) else bitrow i

/-- Modelled from the spec: the raster library primitive
writePackedRow/pbm_writepbmrow_bitoffset (spec section 6), which emits the
width bits of the packed buffer starting at the given bit offset. -/
def writtenPackedRow (bitrow : Int → Option Bool) (width offset : Int) : List (Option Bool) :=
  (List.range width.toNat).map fun (o : Nat) => bitrow (offset + (o : Int))

/-- The right-padding repair of extractRowsPBM (pamcut.c lines 610-613):
one byte of the packed buffer is set to 0xff * PBM_BLACK, i.e. its eight
bits become black. -/
def patchByteBlack (bitrow : Int → Option Bool) (byteIdx : Int) : Int → Option Bool :=
  fun i => if 8 * byteIdx ≤ i ∧ i < 8 * byteIdx + 8 then some true else bitrow i

/-- The error of the totalWidth overflow guards in extractRowsPBM. -/
inductive PbmSetupError where
  | rightEdgeTooFar
  | leftRightEdgeTooFar
deriving DecidableEq, Repr

/-- The scratch-row geometry extractRowsPBM computes before looping. -/
structure PbmSetup where
  totalWidth : Int
  readOffset : Int
  writeOffset : Int
deriving DecidableEq, Repr

/-- The prologue of extractRowsPBM (pamcut.c lines 571-588): totalWidth,
readOffset and writeOffset, or the edge-too-far overflow error. -/
def extractRowsPBMSetup (inWidth leftcol rightcol : Int) : Except PbmSetupError PbmSetup :=
  if leftcol > 0 then
    let totalWidth := cMax (rightcol + 1) inWidth + 7
    if totalWidth > INT_MAX - 10 then .error .rightEdgeTooFar
    else .ok ⟨totalWidth, 0, leftcol⟩
  else
    let totalWidth := -leftcol + cMax (rightcol + 1) inWidth
    if totalWidth > INT_MAX - 10 then .error .leftRightEdgeTooFar
    else .ok ⟨totalWidth, -leftcol, 0⟩

/-- One iteration of the row loop of extractRowsPBM (pamcut.c lines 602-616):
a row inside [toprow, bottomrow] is read into the buffer at readOffset,
written from the buffer at writeOffset, and when the right edge extends past
the input the last written byte of the buffer is patched black afterwards;
any other row is read into NULL and discarded. -/
def pbmRowStep (inWidth outWidth leftcol rightcol toprow bottomrow readOffset writeOffset : Int)
    (img : Int → Int → Bool) (bitrow : Int → Option Bool) (r : Int) :
    (Int → Option Bool) × List (Ev Bool) :=
  if toprow ≤ r ∧ r ≤ bottomrow then
    let b := readPackedRow bitrow (img r) inWidth readOffset
    let evs := [Ev.read r false, Ev.write (writtenPackedRow b outWidth writeOffset)]
    let b2 := if rightcol ≥ inWidth then
        patchByteBlack b (writeOffset / 8 + pbmPackedBytes outWidth - 1)
      else b
    (b2, evs)
  else (bitrow, [Ev.read r true])

/-- The row loop of extractRowsPBM over a list of row indices, threading the
packed scratch buffer. -/
def pbmLoop (inWidth outWidth leftcol rightcol toprow bottomrow readOffset writeOffset : Int)
    (img : Int → Int → Bool) :
    (Int → Option Bool) → List Nat → (Int → Option Bool) × List (Ev Bool)
  | bitrow, [] => (bitrow, [])
  | bitrow, r :: rest =>
      let s := pbmRowStep inWidth outWidth leftcol rightcol toprow bottomrow
                 readOffset writeOffset img bitrow (r : Int)
      let t := pbmLoop inWidth outWidth leftcol rightcol toprow bottomrow
                 readOffset writeOffset img s.1 rest
      (t.1, s.2 ++ t.2)

/-- extractRowsPBM of pamcut.c (lines 592-624) as an event trace, given the
geometry its prologue computed and the initial contents bitrow0 of the
freshly allocated scratch buffer: when any padding is needed the buffer is
pre-blackened; top padding rows are written from it; all height input rows
stream through the loop; bottom padding rows are written after re-blackening
the first outWidth bits. -/
def extractRowsPBM (inWidth height leftcol rightcol toprow bottomrow outWidth
    readOffset writeOffset totalWidth : Int) (img : Int → Int → Bool)
    (bitrow0 : Int → Option Bool) : List (Ev Bool) :=
  let bitrow1 := if toprow < 0 ∨ leftcol < 0 ∨ rightcol ≥ inWidth
                 then makeBlackPBMRow bitrow0 totalWidth else bitrow0
  let topEvs := if (toprow < 0 ∨ leftcol < 0 ∨ rightcol ≥ inWidth) ∧ toprow < 0 then
      List.replicate (0 - toprow).toNat (Ev.write (writtenPackedRow bitrow1 outWidth 0))
    else []
  let lp := pbmLoop inWidth outWidth leftcol rightcol toprow bottomrow
              readOffset writeOffset img bitrow1 (List.range height.toNat)
  let bottomEvs := if bottomrow - (height - 1) > 0 then
      List.replicate (bottomrow - (height - 1)).toNat
        (Ev.write (writtenPackedRow (makeBlackPBMRow lp.1 outWidth) outWidth 0))
    else []
  topEvs ++ lp.2 ++ bottomEvs

/-- The crop-and-pad content of one output row, in closed form: output cell o
carries input column leftcol + o when that column exists, black otherwise.
Both extraction paths are proved to emit exactly this row. -/
def croppedRow {α : Type} (black : α) (inWidth leftcol outWidth : Int)
    (row : Int → α) : List (Option α) :=
  (List.range outWidth.toNat).map fun (o : Nat) =>
    if 0 ≤ leftcol + (o : Int) ∧ leftcol + (o : Int) < inWidth
    then some (row (leftcol + (o : Int))) else some black

/-- The buffer invariant of the packed row loop: every bit of the output
window whose column lies outside the real image is black.  Established by
the pre-blackening (or vacuous when no padding is needed) and preserved by
every read and patch. -/
def PbmInv (inWidth outWidth leftcol writeOffset : Int) (bitrow : Int → Option Bool) : Prop :=
  ∀ o : Int, 0 ≤ o → o < outWidth → (leftcol + o < 0 ∨ inWidth ≤ leftcol + o) →
    bitrow (writeOffset + o) = some true

/-! ## Resolver lemmas -/

/-- Whenever at most two of left/right/width were specified, the horizontal
resolution succeeds, yields the specified width when width was given, and
yields the full image width when none of the three was given. -/
lemma cutBoundsHoriz_ok (cols la ra wa : Int)
    (hH : ¬(la ≠ UNSPEC ∧ ra ≠ UNSPEC ∧ wa ≠ UNSPEC)) :
    ∃ lc rc, cutBoundsHoriz cols la ra wa = some (lc, rc) ∧
      (wa ≠ UNSPEC → rc - lc + 1 = wa) ∧
      ((la = UNSPEC ∧ ra = UNSPEC ∧ wa = UNSPEC) → rc - lc + 1 = cols) := by
  simp only [cutBoundsHoriz, UNSPEC] at hH ⊢
  split_ifs <;>
    first
      | exact absurd ⟨by omega, by omega, by omega⟩ hH
      | exact ⟨_, _, rfl, fun hw => by omega, fun hall => by omega⟩

/-- The vertical analog of cutBoundsHoriz_ok. -/
lemma cutBoundsVert_ok (rows ta ba ha : Int)
    (hV : ¬(ta ≠ UNSPEC ∧ ba ≠ UNSPEC ∧ ha ≠ UNSPEC)) :
    ∃ tr br, cutBoundsVert rows ta ba ha = some (tr, br) ∧
      (ha ≠ UNSPEC → br - tr + 1 = ha) ∧
      ((ta = UNSPEC ∧ ba = UNSPEC ∧ ha = UNSPEC) → br - tr + 1 = rows) := by
  simp only [cutBoundsVert, UNSPEC] at hV ⊢
  split_ifs <;>
    first
      | exact absurd ⟨by omega, by omega, by omega⟩ hV
      | exact ⟨_, _, rfl, fun hw => by omega, fun hall => by omega⟩

/-- The horizontal resolution fails exactly on a triple specification; for a
specified negative edge the normalized value cols + arg cannot collide with
the UNSPEC sentinel as long as cols fits in an int. -/
lemma cutBoundsHoriz_none_iff (cols la ra wa : Int) (hcols : cols ≤ INT_MAX) :
    cutBoundsHoriz cols la ra wa = none ↔ (la ≠ UNSPEC ∧ ra ≠ UNSPEC ∧ wa ≠ UNSPEC) := by
  simp only [cutBoundsHoriz, UNSPEC, INT_MAX] at hcols ⊢
  split_ifs <;> simp <;> omega

/-- The vertical analog of cutBoundsHoriz_none_iff. -/
lemma cutBoundsVert_none_iff (rows ta ba ha : Int) (hrows : rows ≤ INT_MAX) :
    cutBoundsVert rows ta ba ha = none ↔ (ta ≠ UNSPEC ∧ ba ≠ UNSPEC ∧ ha ≠ UNSPEC) := by
  simp only [cutBoundsVert, UNSPEC, INT_MAX] at hrows ⊢
  split_ifs <;> simp <;> omega

/-! ## Claim C1 -/

/-- C1: for positive image dimensions and any argument combination with at
most two of left/right/width (and at most two of top/bottom/height)
specified, the rectangle resolver succeeds and the resolved rectangle
satisfies rightcol - leftcol + 1 = width whenever width is specified and
rightcol - leftcol + 1 = cols when none of left/right/width is specified
(and the vertical analog). -/
theorem C1_resolver_extent (cols rows la ra ta ba wa ha : Int)
    (hc : 0 < cols) (hr : 0 < rows)
    (hH : ¬(la ≠ UNSPEC ∧ ra ≠ UNSPEC ∧ wa ≠ UNSPEC))
    (hV : ¬(ta ≠ UNSPEC ∧ ba ≠ UNSPEC ∧ ha ≠ UNSPEC)) :
    ∃ rect : Rectangle, computeCutBounds cols rows la ra ta ba wa ha = .ok rect ∧
      (wa ≠ UNSPEC → rect.rightcol - rect.leftcol + 1 = wa) ∧
      ((la = UNSPEC ∧ ra = UNSPEC ∧ wa = UNSPEC) → rect.rightcol - rect.leftcol + 1 = cols) ∧
      (ha ≠ UNSPEC → rect.bottomrow - rect.toprow + 1 = ha) ∧
      ((ta = UNSPEC ∧ ba = UNSPEC ∧ ha = UNSPEC) → rect.bottomrow - rect.toprow + 1 = rows) := by
  obtain ⟨lc, rc, hEqH, hw1, hw2⟩ := cutBoundsHoriz_ok cols la ra wa hH
  obtain ⟨tr, br, hEqV, hh1, hh2⟩ := cutBoundsVert_ok rows ta ba ha hV
  refine ⟨⟨lc, rc, tr, br⟩, ?_, hw1, hw2, hh1, hh2⟩
  simp [computeCutBounds, hEqH, hEqV]

/-- C1 witness: a 10 by 10 image with left = 2, width = 4 (and top = 1,
bottom unspecified, height unspecified). -/
theorem C1_witness :
    ∃ rect : Rectangle, computeCutBounds 10 10 2 UNSPEC 1 UNSPEC 4 UNSPEC = .ok rect ∧
      ((4 : Int) ≠ UNSPEC → rect.rightcol - rect.leftcol + 1 = 4) ∧
      (((2 : Int) = UNSPEC ∧ UNSPEC = UNSPEC ∧ (4 : Int) = UNSPEC) →
        rect.rightcol - rect.leftcol + 1 = 10) ∧
      (UNSPEC ≠ UNSPEC → rect.bottomrow - rect.toprow + 1 = UNSPEC) ∧
      (((1 : Int) = UNSPEC ∧ UNSPEC = UNSPEC ∧ UNSPEC = UNSPEC) →
        rect.bottomrow - rect.toprow + 1 = 10) :=
  C1_resolver_extent 10 10 2 UNSPEC 1 UNSPEC 4 UNSPEC (by norm_num)
    (by norm_num) (by decide) (by decide)

/-! ## Claim C7 -/

/-- C7: the resolver fails exactly on the triple-specification cases: it
reports the horizontal overspecification error when left, right and width
are all specified, the vertical one when top, bottom and height are all
specified (and the horizontal block runs first), and it succeeds on every
other combination of values. -/
theorem C7_overspec_iff (cols rows la ra ta ba wa ha : Int)
    (hc : 0 < cols) (hcm : cols ≤ INT_MAX) (hr : 0 < rows) (hrm : rows ≤ INT_MAX) :
    ((∃ e, computeCutBounds cols rows la ra ta ba wa ha = .error e) ↔
      ((la ≠ UNSPEC ∧ ra ≠ UNSPEC ∧ wa ≠ UNSPEC) ∨
       (ta ≠ UNSPEC ∧ ba ≠ UNSPEC ∧ ha ≠ UNSPEC))) ∧
    ((la ≠ UNSPEC ∧ ra ≠ UNSPEC ∧ wa ≠ UNSPEC) →
      computeCutBounds cols rows la ra ta ba wa ha = .error .overspecHoriz) ∧
    (¬(la ≠ UNSPEC ∧ ra ≠ UNSPEC ∧ wa ≠ UNSPEC) →
      (ta ≠ UNSPEC ∧ ba ≠ UNSPEC ∧ ha ≠ UNSPEC) →
      computeCutBounds cols rows la ra ta ba wa ha = .error .overspecVert) := by
  have hH := cutBoundsHoriz_none_iff cols la ra wa hcm
  have hV := cutBoundsVert_none_iff rows ta ba ha hrm
  refine ⟨?_, ?_, ?_⟩
  · constructor
    · rintro ⟨e, he⟩
      rcases hEqH : cutBoundsHoriz cols la ra wa with _ | ⟨lc, rc⟩
      · exact Or.inl (hH.mp hEqH)
      · rcases hEqV : cutBoundsVert rows ta ba ha with _ | ⟨tr, br⟩
        · exact Or.inr (hV.mp hEqV)
        · rw [computeCutBounds, hEqH, hEqV] at he
          exact absurd he (by simp)
    · rintro (h3 | h3)
      · exact ⟨.overspecHoriz, by rw [computeCutBounds, hH.mpr h3]⟩
      · rcases hEqH : cutBoundsHoriz cols la ra wa with _ | ⟨lc, rc⟩
        · exact ⟨.overspecHoriz, by rw [computeCutBounds, hEqH]⟩
        · exact ⟨.overspecVert, by rw [computeCutBounds, hEqH, hV.mpr h3]⟩
  · intro h3
    rw [computeCutBounds, hH.mpr h3]
  · intro h3 h4
    rcases hEqH : cutBoundsHoriz cols la ra wa with _ | ⟨lc, rc⟩
    · exact absurd (hH.mp hEqH) h3
    · rw [computeCutBounds, hEqH, hV.mpr h4]

/-- C7 witness: on a 10 by 10 image, left = 1, right = 2, width = 3
all specified fails with the horizontal overspecification error. -/
theorem C7_witness :
    ((∃ e, computeCutBounds 10 10 1 2 UNSPEC UNSPEC 3 UNSPEC = .error e) ↔
      (((1 : Int) ≠ UNSPEC ∧ (2 : Int) ≠ UNSPEC ∧ (3 : Int) ≠ UNSPEC) ∨
       (UNSPEC ≠ UNSPEC ∧ UNSPEC ≠ UNSPEC ∧ UNSPEC ≠ UNSPEC))) ∧
    (((1 : Int) ≠ UNSPEC ∧ (2 : Int) ≠ UNSPEC ∧ (3 : Int) ≠ UNSPEC) →
      computeCutBounds 10 10 1 2 UNSPEC UNSPEC 3 UNSPEC = .error .overspecHoriz) ∧
    (¬((1 : Int) ≠ UNSPEC ∧ (2 : Int) ≠ UNSPEC ∧ (3 : Int) ≠ UNSPEC) →
      (UNSPEC ≠ UNSPEC ∧ UNSPEC ≠ UNSPEC ∧ UNSPEC ≠ UNSPEC) →
      computeCutBounds 10 10 1 2 UNSPEC UNSPEC 3 UNSPEC = .error .overspecVert) :=
  C7_overspec_iff 10 10 1 2 UNSPEC UNSPEC 3 UNSPEC (by norm_num)
    (by norm_num [INT_MAX]) (by norm_num) (by norm_num [INT_MAX])

/-! ## Claim C2 -/

set_option maxHeartbeats 1000000 in
/-- C2 counterexample: the rectangle leftcol = -2, rightcol = -3 (top 0,
bottom 0) on a 10 by 10 image is out of range (leftcol < 0), yet with
padding enabled the validator still rejects it, contradicting the claim
that with padding every such out-of-range rectangle is accepted. -/
theorem C2_counterexample :
    (-2 : Int) < 0 ∧ rejectOutOfBounds 10 10 (-2) (-3) 0 0 true ≠ none := by decide

set_option maxHeartbeats 2000000 in
/-- C2 as amended: without -pad every rectangle violating one of the eight
bounds conditions is rejected with an out-of-bounds error; with -pad an
out-of-range rectangle is accepted provided it is not inverted; an inverted
rectangle is rejected regardless of the padding flag, and with -pad the
reported error is the inverted-rectangle one (without -pad a bounds error
may be reported first). -/
theorem C2_bounds_validator (cols rows lc rc tr br : Int) (pad : Bool) :
    (pad = false →
      (lc < 0 ∨ lc > cols - 1 ∨ rc < 0 ∨ rc > cols - 1 ∨
       tr < 0 ∨ tr > rows - 1 ∨ br < 0 ∨ br > rows - 1) →
      ∃ e, rejectOutOfBounds cols rows lc rc tr br pad = some e ∧ e.isOutOfBounds = true) ∧
    (pad = true → lc ≤ rc → tr ≤ br →
      rejectOutOfBounds cols rows lc rc tr br pad = none) ∧
    (pad = true → (lc > rc ∨ tr > br) →
      ∃ e, rejectOutOfBounds cols rows lc rc tr br pad = some e ∧ e.isInverted = true) ∧
    ((lc > rc ∨ tr > br) → rejectOutOfBounds cols rows lc rc tr br pad ≠ none) := by
  refine ⟨?_, ?_, ?_, ?_⟩
  · rintro rfl hoob
    simp only [rejectOutOfBounds, eq_self_iff_true, true_and]
    split_ifs
    all_goals
      first
        | exact ⟨_, rfl, rfl⟩
        | (exfalso; rcases hoob with h | h | h | h | h | h | h | h <;> omega)
  · rintro rfl hlr htb
    simp only [rejectOutOfBounds, Bool.true_eq_false, false_and, if_false]
    split_ifs
    all_goals first | rfl | (exfalso; omega)
  · rintro rfl hinv
    simp only [rejectOutOfBounds, Bool.true_eq_false, false_and, if_false]
    split_ifs
    all_goals first | exact ⟨_, rfl, rfl⟩ | (exfalso; rcases hinv with h | h <;> omega)
  · intro hinv
    cases pad
    · simp only [rejectOutOfBounds, eq_self_iff_true, true_and]
      split_ifs
      all_goals first | (exfalso; rcases hinv with h | h <;> omega) | simp
    · simp only [rejectOutOfBounds, Bool.true_eq_false, false_and, if_false]
      split_ifs
      all_goals first | (exfalso; rcases hinv with h | h <;> omega) | simp

set_option maxHeartbeats 1000000 in
/-- C2 witness: concrete instances of each clause of C2_bounds_validator:
a 10 by 10 image with rectangle (-1, 5, 0, 9). -/
theorem C2_witness :
    (false = false →
      ((-1 : Int) < 0 ∨ (-1 : Int) > 10 - 1 ∨ (5 : Int) < 0 ∨ (5 : Int) > 10 - 1 ∨
       (0 : Int) < 0 ∨ (0 : Int) > 10 - 1 ∨ (9 : Int) < 0 ∨ (9 : Int) > 10 - 1) →
      ∃ e, rejectOutOfBounds 10 10 (-1) 5 0 9 false = some e ∧ e.isOutOfBounds = true) ∧
    (false = true → (-1 : Int) ≤ 5 → (0 : Int) ≤ 9 →
      rejectOutOfBounds 10 10 (-1) 5 0 9 false = none) ∧
    (false = true → ((-1 : Int) > 5 ∨ (0 : Int) > 9) →
      ∃ e, rejectOutOfBounds 10 10 (-1) 5 0 9 false = some e ∧ e.isInverted = true) ∧
    (((-1 : Int) > 5 ∨ (0 : Int) > 9) → rejectOutOfBounds 10 10 (-1) 5 0 9 false ≠ none) :=
  C2_bounds_validator 10 10 (-1) 5 0 9 false

/-! ## Claim C9 -/

/-- C9: in the legacy positional form, a positive 3rd argument is stored as
the width with right unspecified, a non-positive 3rd argument is stored as
right = value - 1 (which is negative, hence far-edge relative) with width
unspecified; identically for the 4th argument with height/bottom. -/
theorem C9_legacy_args (l t v w : Int) :
    (v > 0 → (parseLegacyArgs l t v w).width = v ∧ (parseLegacyArgs l t v w).right = UNSPEC) ∧
    (v ≤ 0 → (parseLegacyArgs l t v w).width = UNSPEC ∧
      (parseLegacyArgs l t v w).right = v - 1 ∧ (parseLegacyArgs l t v w).right < 0) ∧
    (w > 0 → (parseLegacyArgs l t v w).height = w ∧ (parseLegacyArgs l t v w).bottom = UNSPEC) ∧
    (w ≤ 0 → (parseLegacyArgs l t v w).height = UNSPEC ∧
      (parseLegacyArgs l t v w).bottom = w - 1 ∧ (parseLegacyArgs l t v w).bottom < 0) := by
  refine ⟨fun hv => ?_, fun hv => ?_, fun hw => ?_, fun hw => ?_⟩ <;>
    simp only [parseLegacyArgs] <;> split_ifs <;>
    first | exact ⟨rfl, rfl⟩ | refine ⟨rfl, rfl, by omega⟩ | omega

/-- C9 witness: the spec's legacy scenario, arguments 0 0 -5 -5: both stored
as right = bottom = -6 with width and height unspecified (shown here through
the non-positive clauses at v = w = -5, plus the positive clauses at 3 4). -/
theorem C9_witness :
    (((-5 : Int) ≤ 0 → (parseLegacyArgs 0 0 (-5) (-5)).width = UNSPEC ∧
        (parseLegacyArgs 0 0 (-5) (-5)).right = -5 - 1 ∧
        (parseLegacyArgs 0 0 (-5) (-5)).right < 0) ∧
      ((-5 : Int) ≤ 0 → (parseLegacyArgs 0 0 (-5) (-5)).height = UNSPEC ∧
        (parseLegacyArgs 0 0 (-5) (-5)).bottom = -5 - 1 ∧
        (parseLegacyArgs 0 0 (-5) (-5)).bottom < 0)) ∧
    (((3 : Int) > 0 → (parseLegacyArgs 0 0 3 4).width = 3 ∧
        (parseLegacyArgs 0 0 3 4).right = UNSPEC) ∧
      ((4 : Int) > 0 → (parseLegacyArgs 0 0 3 4).height = 4 ∧
        (parseLegacyArgs 0 0 3 4).bottom = UNSPEC)) :=
  ⟨⟨(C9_legacy_args 0 0 (-5) (-5)).2.1, (C9_legacy_args 0 0 (-5) (-5)).2.2.2⟩,
   ⟨(C9_legacy_args 0 0 3 4).1, (C9_legacy_args 0 0 3 4).2.2.1⟩⟩

/-! ## Claim C10 -/

/-- C10: the unspecified sentinel is the integer 2147483647 (INT_MAX); an
option explicitly supplied as 2147483647 is stored exactly as an
unsupplied option is, so the resolver cannot distinguish the two; and for
an image whose width fits in an int, a negative argument n normalizes to
cols + n < INT_MAX, so a negative value can never alias the sentinel. -/
theorem C10_unspec_sentinel (cols rows ra ta ba wa ha : Int)
    (hc : 0 < cols) (hcm : cols ≤ INT_MAX) :
    UNSPEC = 2147483647 ∧
    optValue (some 2147483647) = optValue none ∧
    computeCutBounds cols rows (optValue (some 2147483647)) ra ta ba wa ha =
      computeCutBounds cols rows (optValue none) ra ta ba wa ha ∧
    (∀ n : Int, n < 0 → cols + n < INT_MAX) := by
  refine ⟨rfl, rfl, rfl, fun n hn => ?_⟩
  simp only [INT_MAX] at hcm ⊢
  omega

/-- C10 witness: a 10 by 10 image with the remaining arguments left at the
sentinel. -/
theorem C10_witness :
    UNSPEC = 2147483647 ∧
    optValue (some 2147483647) = optValue none ∧
    computeCutBounds 10 10 (optValue (some 2147483647)) UNSPEC UNSPEC UNSPEC UNSPEC UNSPEC =
      computeCutBounds 10 10 (optValue none) UNSPEC UNSPEC UNSPEC UNSPEC UNSPEC ∧
    (∀ n : Int, n < 0 → (10 : Int) + n < INT_MAX) :=
  C10_unspec_sentinel 10 10 UNSPEC UNSPEC UNSPEC UNSPEC UNSPEC (by norm_num)
    (by norm_num [INT_MAX])

/-! ## Claim C5 -/

instance {e a : Type} [DecidableEq e] [DecidableEq a] : DecidableEq (Except e a) := fun x y =>
  match x, y with
  | .ok x, .ok y => decidable_of_iff (x = y) (by simp)
  | .error x, .error y => decidable_of_iff (x = y) (by simp)
  | .ok _, .error _ => isFalse (by simp)
  | .error _, .ok _ => isFalse (by simp)

/-- The totalWidth formula exactly as the claim words it, for comparison
with what the code computes. -/
def claimedTotalWidth (inWidth leftcol rightcol : Int) : Int :=
  |leftcol| + max (rightcol + 1) inWidth

set_option maxHeartbeats 1000000 in
/-- C5 counterexample: for the validated rectangle leftcol = 5,
rightcol = 9 on a 10-pixel-wide input, the code computes
totalWidth = MAX(rightcol + 1, width) + 7 = 17, not the claimed
abs(leftcol) + max(rightcol + 1, width) = 15. -/
theorem C5_counterexample :
    (5 : Int) ≤ 9 ∧
    extractRowsPBMSetup 10 5 9 = .ok ⟨17, 0, 5⟩ ∧
    claimedTotalWidth 10 5 9 = 15 ∧ (17 : Int) ≠ 15 := by decide

/-- C5 as amended: the packed-path prologue computes
totalWidth = max(rightCol + 1, inputWidth) + 7 when leftCol > 0 and
-leftCol + max(rightCol + 1, inputWidth) otherwise; it fails with the
edge-too-far error exactly when that totalWidth exceeds INT_MAX - 10 (the
guard against overflowing the packed-row byte count); and on success
readOffset = max(0, -leftCol) and writeOffset = max(0, leftCol), i.e.
readOffset = 0 and writeOffset = leftCol when leftCol > 0, else
readOffset = -leftCol and writeOffset = 0. -/
theorem C5_pbm_setup (inWidth leftcol rightcol : Int) :
    ((∃ e, extractRowsPBMSetup inWidth leftcol rightcol = .error e) ↔
      (if leftcol > 0 then cMax (rightcol + 1) inWidth + 7
       else -leftcol + cMax (rightcol + 1) inWidth) > INT_MAX - 10) ∧
    (∀ st : PbmSetup, extractRowsPBMSetup inWidth leftcol rightcol = .ok st →
      st.readOffset = max 0 (-leftcol) ∧ st.writeOffset = max 0 leftcol ∧
      st.totalWidth = (if leftcol > 0 then cMax (rightcol + 1) inWidth + 7
                       else -leftcol + cMax (rightcol + 1) inWidth)) := by
  constructor
  · simp only [extractRowsPBMSetup]
    split_ifs <;> simp_all
  · intro st hst
    simp only [extractRowsPBMSetup] at hst
    split_ifs at hst with h1 h2 h2
    · injection hst with h
      subst h
      dsimp only
      exact ⟨(max_eq_left (by omega)).symm, (max_eq_right (by omega)).symm, (if_pos h1).symm⟩
    · injection hst with h
      subst h
      dsimp only
      exact ⟨(max_eq_right (by omega)).symm, (max_eq_left (by omega)).symm, (if_neg h1).symm⟩

/-- C5 witness: the setup at leftcol = -2, rightcol = 9, input width 10
succeeds with totalWidth 12, readOffset 2, writeOffset 0. -/
theorem C5_witness :
    (((∃ e, extractRowsPBMSetup 10 (-2) 9 = .error e) ↔
       (if (-2 : Int) > 0 then cMax (9 + 1) 10 + 7
        else -(-2) + cMax (9 + 1) 10) > INT_MAX - 10) ∧
     ((extractRowsPBMSetup 10 (-2) 9 = .ok ⟨12, 2, 0⟩) →
       (PbmSetup.mk 12 2 0).readOffset = max 0 (-(-2)) ∧
       (PbmSetup.mk 12 2 0).writeOffset = max 0 (-2) ∧
       (PbmSetup.mk 12 2 0).totalWidth =
         (if (-2 : Int) > 0 then cMax (9 + 1) 10 + 7
          else -(-2) + cMax (9 + 1) 10))) :=
  ⟨(C5_pbm_setup 10 (-2) 9).1, (C5_pbm_setup 10 (-2) 9).2 ⟨12, 2, 0⟩⟩

/-! ## Row plan and trace lemmas -/

lemma le_cMax_left (a b : Int) : a ≤ cMax a b := by
  unfold cMax; split_ifs <;> omega

lemma le_cMax_right (a b : Int) : b ≤ cMax a b := by
  unfold cMax; split_ifs <;> omega

/-- On a validated rectangle every output cell of the row plan is assigned:
black for a column outside the real image, the copy cell of column
leftcol + o otherwise. -/
lemma outputPointers_eq (inWidth leftcol rightcol : Int) (o : Int)
    (hW : 0 < inWidth) (hlr : leftcol ≤ rightcol)
    (h0 : 0 ≤ o) (h1 : o < rightcol - leftcol + 1) :
    outputPointers inWidth (rightcol - leftcol + 1) leftcol rightcol o =
      (if 0 ≤ leftcol + o ∧ leftcol + o < inWidth then .copy (leftcol + o) else .blackFill) := by
  simp only [outputPointers, cMax, cMin]
  split_ifs <;> first | rfl | (exfalso; omega)

/-- The general path's output row is the closed-form cropped row. -/
lemma outRowGen_eq_croppedRow {α : Type} (black : α) (inWidth leftcol rightcol : Int)
    (row : Int → α) (hW : 0 < inWidth) (hlr : leftcol ≤ rightcol) :
    outRowGen black inWidth (rightcol - leftcol + 1) leftcol rightcol row =
      croppedRow black inWidth leftcol (rightcol - leftcol + 1) row := by
  unfold outRowGen croppedRow
  refine List.ext_getElem (by simp) fun i hi1 hi2 => ?_
  simp only [List.getElem_map, List.getElem_range]
  have hi : (i : Int) < rightcol - leftcol + 1 := by
    simp only [List.length_map, List.length_range] at hi1
    omega
  rw [outputPointers_eq inWidth leftcol rightcol (i : Int) hW hlr (by omega) hi]
  split_ifs <;> rfl

lemma readsOf_append {α : Type} (l1 l2 : List (Ev α)) :
    readsOf (l1 ++ l2) = readsOf l1 ++ readsOf l2 := by
  induction l1 with
  | nil => rfl
  | cons e rest ih => cases e <;> simp [readsOf, ih]

lemma writesOf_append {α : Type} (l1 l2 : List (Ev α)) :
    writesOf (l1 ++ l2) = writesOf l1 ++ writesOf l2 := by
  induction l1 with
  | nil => rfl
  | cons e rest ih => cases e <;> simp [writesOf, ih]

lemma readsOf_replicate_write {α : Type} (n : Nat) (row : List (Option α)) :
    readsOf (List.replicate n (Ev.write row)) = [] := by
  induction n with
  | zero => rfl
  | succ n ih => simp [List.replicate_succ, readsOf, ih]

lemma writesOf_replicate_write {α : Type} (n : Nat) (row : List (Option α)) :
    writesOf (List.replicate n (Ev.write row)) = List.replicate n row := by
  induction n with
  | zero => rfl
  | succ n ih => simp [List.replicate_succ, writesOf, ih]

/-- The general row loop reads exactly its row list, in order. -/
lemma readsOf_genLoop {α : Type} (black : α)
    (inWidth outWidth leftcol rightcol toprow bottomrow : Int)
    (img : Int → Int → α) (rs : List Nat) :
    readsOf (genLoop black inWidth outWidth leftcol rightcol toprow bottomrow img rs) =
      rs.map (fun (r : Nat) => (r : Int)) := by
  induction rs with
  | nil => rfl
  | cons r rest ih =>
      rw [genLoop, readsOf_append, ih]
      split_ifs <;> rfl

/-- The packed row loop reads exactly its row list, in order, whatever the
buffer holds. -/
lemma readsOf_pbmLoop (inWidth outWidth leftcol rightcol toprow bottomrow ro wo : Int)
    (img : Int → Int → Bool) (rs : List Nat) :
    ∀ bitrow : Int → Option Bool,
      readsOf (pbmLoop inWidth outWidth leftcol rightcol toprow bottomrow ro wo
        img bitrow rs).2 = rs.map (fun (r : Nat) => (r : Int)) := by
  induction rs with
  | nil => intro bitrow; rfl
  | cons r rest ih =>
      intro bitrow
      rw [pbmLoop]
      dsimp only
      rw [readsOf_append, ih]
      unfold pbmRowStep
      split_ifs <;> rfl

/-- extractRowsGen reads each of the height input rows exactly once, in
order, whatever the rectangle. -/
lemma readsOf_extractRowsGen {α : Type} (black : α)
    (inWidth height leftcol rightcol toprow bottomrow outWidth : Int)
    (img : Int → Int → α) :
    readsOf (extractRowsGen black inWidth height leftcol rightcol toprow bottomrow
        outWidth img) = (List.range height.toNat).map (fun (r : Nat) => (r : Int)) := by
  unfold extractRowsGen writeBlackRows
  rw [readsOf_append, readsOf_append, readsOf_genLoop]
  split_ifs <;> simp [readsOf_replicate_write, readsOf]

/-- extractRowsPBM reads each of the height input rows exactly once, in
order, whatever the rectangle, offsets and buffer contents. -/
lemma readsOf_extractRowsPBM (inWidth height leftcol rightcol toprow bottomrow
    outWidth ro wo tw : Int) (img : Int → Int → Bool) (bitrow0 : Int → Option Bool) :
    readsOf (extractRowsPBM inWidth height leftcol rightcol toprow bottomrow
        outWidth ro wo tw img bitrow0) = (List.range height.toNat).map (fun (r : Nat) => (r : Int)) := by
  unfold extractRowsPBM
  rw [readsOf_append, readsOf_append, readsOf_pbmLoop]
  split_ifs <;> simp [readsOf_replicate_write, readsOf]

/-! ## Packed-path buffer lemmas -/

/-- The first outWidth bits of a freshly blackened packed row of tw bits are
exactly a black output row. -/
lemma writtenPackedRow_makeBlack (b : Int → Option Bool) (outW tw : Int)
    (h0 : 0 ≤ outW) (h1 : outW ≤ tw) :
    writtenPackedRow (makeBlackPBMRow b tw) outW 0 = blackRow true outW := by
  unfold writtenPackedRow blackRow
  refine List.ext_getElem (by simp) fun i hi1 hi2 => ?_
  simp only [List.getElem_map, List.getElem_range, List.getElem_replicate,
    List.length_map, List.length_range] at hi1 ⊢
  unfold makeBlackPBMRow
  rw [if_pos ⟨by omega, by omega⟩]

/-- Under the buffer invariant, the row written after a bit-offset read is
exactly the cropped row: real columns come from the row just read, columns
outside the image come from the pre-blackened buffer bits. -/
lemma written_readPacked_eq (bitrow : Int → Option Bool) (row : Int → Bool)
    (inWidth outW leftcol ro wo : Int) (hwo : wo = ro + leftcol)
    (hinv : PbmInv inWidth outW leftcol wo bitrow) :
    writtenPackedRow (readPackedRow bitrow row inWidth ro) outW wo =
      croppedRow true inWidth leftcol outW row := by
  unfold writtenPackedRow croppedRow
  refine List.ext_getElem (by simp) fun i hi1 hi2 => ?_
  simp only [List.getElem_map, List.getElem_range, List.length_map,
    List.length_range] at hi1 ⊢
  unfold readPackedRow
  split_ifs with hc hd hd
  · have harg : wo + (i : Int) - ro = leftcol + (i : Int) := by omega
    rw [harg]
  · exfalso; omega
  · exfalso; omega
  · exact hinv (i : Int) (by omega) (by omega) (by omega)

/-- A bit-offset read leaves the invariant bits untouched: the read window
covers exactly the real columns. -/
lemma readPacked_preserves_inv (bitrow : Int → Option Bool) (row : Int → Bool)
    (inWidth outW leftcol ro wo : Int) (hwo : wo = ro + leftcol)
    (hinv : PbmInv inWidth outW leftcol wo bitrow) :
    PbmInv inWidth outW leftcol wo (readPackedRow bitrow row inWidth ro) := by
  intro o h0 h1 h2
  unfold readPackedRow
  rw [if_neg (by omega)]
  exact hinv o h0 h1 h2

/-- Patching a byte to all-black can only blacken bits, so it preserves the
invariant. -/
lemma patch_preserves_inv (bitrow : Int → Option Bool) (byteIdx : Int)
    (inWidth outW leftcol wo : Int)
    (hinv : PbmInv inWidth outW leftcol wo bitrow) :
    PbmInv inWidth outW leftcol wo (patchByteBlack bitrow byteIdx) := by
  intro o h0 h1 h2
  unfold patchByteBlack
  split_ifs with h
  · rfl
  · exact hinv o h0 h1 h2

/-- One loop iteration preserves the buffer invariant. -/
lemma pbmRowStep_fst_inv (inWidth outW leftcol rightcol toprow bottomrow ro wo : Int)
    (img : Int → Int → Bool) (bitrow : Int → Option Bool) (r : Int)
    (hwo : wo = ro + leftcol)
    (hinv : PbmInv inWidth outW leftcol wo bitrow) :
    PbmInv inWidth outW leftcol wo
      (pbmRowStep inWidth outW leftcol rightcol toprow bottomrow ro wo img bitrow r).1 := by
  unfold pbmRowStep
  split_ifs with h h2 <;> dsimp only
  · exact patch_preserves_inv _ _ _ _ _ _
      (readPacked_preserves_inv bitrow (img r) inWidth outW leftcol ro wo hwo hinv)
  · exact readPacked_preserves_inv bitrow (img r) inWidth outW leftcol ro wo hwo hinv
  · exact hinv

/-- The events of one in-range loop iteration: one read and one write of the
cropped row. -/
lemma pbmRowStep_snd_used (inWidth outW leftcol rightcol toprow bottomrow ro wo : Int)
    (img : Int → Int → Bool) (bitrow : Int → Option Bool) (r : Int)
    (hr : toprow ≤ r ∧ r ≤ bottomrow) (hwo : wo = ro + leftcol)
    (hinv : PbmInv inWidth outW leftcol wo bitrow) :
    (pbmRowStep inWidth outW leftcol rightcol toprow bottomrow ro wo img bitrow r).2 =
      [Ev.read r false, Ev.write (croppedRow true inWidth leftcol outW (img r))] := by
  unfold pbmRowStep
  rw [if_pos hr]
  dsimp only
  rw [written_readPacked_eq bitrow (img r) inWidth outW leftcol ro wo hwo hinv]

/-- The events of one out-of-range loop iteration: a discarded read. -/
lemma pbmRowStep_snd_skip (inWidth outW leftcol rightcol toprow bottomrow ro wo : Int)
    (img : Int → Int → Bool) (bitrow : Int → Option Bool) (r : Int)
    (hr : ¬(toprow ≤ r ∧ r ≤ bottomrow)) :
    (pbmRowStep inWidth outW leftcol rightcol toprow bottomrow ro wo img bitrow r).2 =
      [Ev.read r true] := by
  unfold pbmRowStep
  rw [if_neg hr]

/-- Pre-blackening the whole scratch row establishes the invariant as long
as the output window fits inside it. -/
lemma inv_makeBlack (inWidth outW leftcol wo tw : Int) (b : Int → Option Bool)
    (hwo0 : 0 ≤ wo) (htw : wo + outW ≤ tw) :
    PbmInv inWidth outW leftcol wo (makeBlackPBMRow b tw) := by
  intro o h0 h1 h2
  unfold makeBlackPBMRow
  rw [if_pos ⟨by omega, by omega⟩]

/-- When the rectangle needs no horizontal padding the invariant is vacuous. -/
lemma inv_no_pad (inWidth outW leftcol wo : Int) (b : Int → Option Bool)
    (hl : 0 ≤ leftcol) (hr2 : leftcol + outW - 1 < inWidth) :
    PbmInv inWidth outW leftcol wo b := by
  intro o h0 h1 h2
  exfalso; omega

/-- Under the invariant the packed row loop emits exactly the events of the
general row loop. -/
lemma pbmLoop_snd_eq_genLoop (inWidth leftcol rightcol toprow bottomrow ro wo : Int)
    (img : Int → Int → Bool) (hW : 0 < inWidth) (hlr : leftcol ≤ rightcol)
    (hwo : wo = ro + leftcol) (rs : List Nat) :
    ∀ bitrow : Int → Option Bool,
      PbmInv inWidth (rightcol - leftcol + 1) leftcol wo bitrow →
      (pbmLoop inWidth (rightcol - leftcol + 1) leftcol rightcol toprow bottomrow
        ro wo img bitrow rs).2 =
      genLoop true inWidth (rightcol - leftcol + 1) leftcol rightcol toprow bottomrow img rs := by
  induction rs with
  | nil => intro bitrow hinv; rfl
  | cons r rest ih =>
      intro bitrow hinv
      rw [pbmLoop, genLoop]
      dsimp only
      rw [ih _ (pbmRowStep_fst_inv inWidth (rightcol - leftcol + 1) leftcol rightcol
        toprow bottomrow ro wo img bitrow (r : Int) hwo hinv)]
      by_cases hr : toprow ≤ (r : Int) ∧ (r : Int) ≤ bottomrow
      · rw [if_pos hr, pbmRowStep_snd_used inWidth (rightcol - leftcol + 1) leftcol rightcol
          toprow bottomrow ro wo img bitrow (r : Int) hr hwo hinv,
          outRowGen_eq_croppedRow true inWidth leftcol rightcol (img (r : Int)) hW hlr]
      · rw [if_neg hr, pbmRowStep_snd_skip inWidth (rightcol - leftcol + 1) leftcol rightcol
          toprow bottomrow ro wo img bitrow (r : Int) hr]

/-- The packed fast path emits exactly the event trace of the general path,
for any validated rectangle, image, initial buffer contents and offsets
satisfying the prologue's geometry (writeOffset = readOffset + leftcol,
both offsets non-negative, output window inside the scratch row). -/
lemma extract_pbm_eq_gen_core (inWidth height leftcol rightcol toprow bottomrow ro wo tw : Int)
    (img : Int → Int → Bool) (bitrow0 : Int → Option Bool)
    (hW : 0 < inWidth) (hlr : leftcol ≤ rightcol)
    (hro : 0 ≤ ro) (hwo : wo = ro + leftcol) (hwo0 : 0 ≤ wo)
    (htw : wo + (rightcol - leftcol + 1) ≤ tw) :
    extractRowsPBM inWidth height leftcol rightcol toprow bottomrow
      (rightcol - leftcol + 1) ro wo tw img bitrow0 =
    extractRowsGen true inWidth height leftcol rightcol toprow bottomrow
      (rightcol - leftcol + 1) img := by
  have houtW0 : (0 : Int) ≤ rightcol - leftcol + 1 := by omega
  have houtWtw : rightcol - leftcol + 1 ≤ tw := by omega
  have hinv1 : PbmInv inWidth (rightcol - leftcol + 1) leftcol wo
      (if toprow < 0 ∨ leftcol < 0 ∨ rightcol ≥ inWidth
       then makeBlackPBMRow bitrow0 tw else bitrow0) := by
    split_ifs with hcond
    · exact inv_makeBlack inWidth _ leftcol wo tw bitrow0 hwo0 htw
    · push_neg at hcond
      exact inv_no_pad inWidth _ leftcol wo bitrow0 (by omega) (by omega)
  unfold extractRowsPBM extractRowsGen
  dsimp only
  rw [pbmLoop_snd_eq_genLoop inWidth leftcol rightcol toprow bottomrow ro wo img hW hlr hwo
      (List.range height.toNat) _ hinv1]
  congr 1
  · by_cases htop : toprow < 0
    · rw [if_pos ⟨Or.inl htop, htop⟩, if_pos (show 0 - toprow > 0 by omega),
        if_pos (Or.inl htop),
        writtenPackedRow_makeBlack bitrow0 (rightcol - leftcol + 1) tw houtW0 houtWtw]
      rfl
    · rw [if_neg (fun h => htop h.2), if_neg (show ¬(0 - toprow > 0) by omega)]
  · congr 1
    rw [writtenPackedRow_makeBlack _ (rightcol - leftcol + 1) (rightcol - leftcol + 1)
        houtW0 le_rfl]
    rfl

/-! ## Claim C6 -/

/-- C6: for every 1-bit image and every validated rectangle whose packed
geometry the prologue accepts, the packed fast path produces the identical
event trace — in particular byte-identical written rows — to the general
path performing the same crop-and-pad, whatever garbage the freshly
allocated packed buffer initially holds. -/
theorem C6_pbm_matches_gen (inWidth height leftcol rightcol toprow bottomrow : Int)
    (st : PbmSetup) (img : Int → Int → Bool) (bitrow0 : Int → Option Bool)
    (hW : 0 < inWidth) (hlr : leftcol ≤ rightcol) (htb : toprow ≤ bottomrow)
    (hset : extractRowsPBMSetup inWidth leftcol rightcol = .ok st) :
    extractRowsPBM inWidth height leftcol rightcol toprow bottomrow
      (rightcol - leftcol + 1) st.readOffset st.writeOffset st.totalWidth img bitrow0 =
    extractRowsGen true inWidth height leftcol rightcol toprow bottomrow
      (rightcol - leftcol + 1) img := by
  simp only [extractRowsPBMSetup] at hset
  split_ifs at hset with h1 h2 h2
  · injection hset with h
    subst h
    exact extract_pbm_eq_gen_core inWidth height leftcol rightcol toprow bottomrow
      0 leftcol (cMax (rightcol + 1) inWidth + 7) img bitrow0 hW hlr le_rfl
      (by omega) (by omega)
      (by have := le_cMax_left (rightcol + 1) inWidth; omega)
  · injection hset with h
    subst h
    exact extract_pbm_eq_gen_core inWidth height leftcol rightcol toprow bottomrow
      (-leftcol) 0 (-leftcol + cMax (rightcol + 1) inWidth) img bitrow0 hW hlr
      (by omega) (by omega) le_rfl
      (by have := le_cMax_left (rightcol + 1) inWidth; omega)

/-- C6 witness: a 3 by 2 bit image cut with padding on every side
(leftcol = -1, rightcol = 3, toprow = -1, bottomrow = 2). -/
theorem C6_witness :
    (0 : Int) < 3 ∧ (-1 : Int) ≤ 3 ∧ (-1 : Int) ≤ 2 ∧
    extractRowsPBMSetup 3 (-1) 3 = .ok ⟨5, 1, 0⟩ ∧
    extractRowsPBM 3 2 (-1) 3 (-1) 2 (3 - (-1) + 1)
        (PbmSetup.mk 5 1 0).readOffset (PbmSetup.mk 5 1 0).writeOffset
        (PbmSetup.mk 5 1 0).totalWidth
        (fun r c => decide ((r + c) % 2 = 0)) (fun _ => none) =
      extractRowsGen true 3 2 (-1) 3 (-1) 2 (3 - (-1) + 1)
        (fun r c => decide ((r + c) % 2 = 0)) :=
  ⟨by norm_num, by norm_num, by norm_num, by decide,
   C6_pbm_matches_gen 3 2 (-1) 3 (-1) 2 ⟨5, 1, 0⟩
     (fun r c => decide ((r + c) % 2 = 0)) (fun _ => none)
     (by norm_num) (by norm_num) (by norm_num) (by decide)⟩

/-! ## Claim C4 -/

/-- C4: for every image and every validated rectangle, both the general path
and the packed 1-bit path read each of the height input rows exactly once,
in order — the read trace is row 0, 1, ..., height-1 — whether or not a row
lies inside [toprow, bottomrow]. -/
theorem C4_reads_each_row_once {α : Type} (black : α)
    (imgG : Int → Int → α) (imgP : Int → Int → Bool)
    (inWidth height leftcol rightcol toprow bottomrow outWidth ro wo tw : Int)
    (bitrow0 : Int → Option Bool)
    (hlr : leftcol ≤ rightcol) (htb : toprow ≤ bottomrow) :
    readsOf (extractRowsGen black inWidth height leftcol rightcol toprow bottomrow
        outWidth imgG) = (List.range height.toNat).map (fun (r : Nat) => (r : Int)) ∧
    readsOf (extractRowsPBM inWidth height leftcol rightcol toprow bottomrow
        outWidth ro wo tw imgP bitrow0) =
      (List.range height.toNat).map (fun (r : Nat) => (r : Int)) :=
  ⟨readsOf_extractRowsGen black inWidth height leftcol rightcol toprow bottomrow
      outWidth imgG,
   readsOf_extractRowsPBM inWidth height leftcol rightcol toprow bottomrow
      outWidth ro wo tw imgP bitrow0⟩

/-- C4 witness: a 4-row image cut to rows 1..2, columns 1..2: both paths
read rows 0, 1, 2, 3. -/
theorem C4_witness :
    readsOf (extractRowsGen true 3 4 1 2 1 2 2 (fun _ _ => false)) =
      (List.range (4 : Int).toNat).map (fun (r : Nat) => (r : Int)) ∧
    readsOf (extractRowsPBM 3 4 1 2 1 2 2 0 1 10 (fun _ _ => false) (fun _ => none)) =
      (List.range (4 : Int).toNat).map (fun (r : Nat) => (r : Int)) :=
  C4_reads_each_row_once true (fun _ _ => false) (fun _ _ => false)
    3 4 1 2 1 2 2 0 1 10 (fun _ => none) (by norm_num) (by norm_num)

/-! ## Claim C3 -/

set_option maxHeartbeats 1000000 in
/-- C3 at its failing input: on a 10-row image, the validated (pad-enabled)
rectangle toprow = 15, bottomrow = 20, full width, passes resolution and
validation, yet the general path emits 11 rows (all bottom padding) while
the output header declares height 20 - 15 + 1 = 6 — the claim that the
total number of rows emitted equals bottomrow - toprow + 1 fails. -/
theorem C3_bug_total_rows :
    computeCutBounds 10 10 UNSPEC UNSPEC 15 20 UNSPEC UNSPEC = .ok ⟨0, 9, 15, 20⟩ ∧
    rejectOutOfBounds 10 10 0 9 15 20 true = none ∧
    (writesOf (extractRowsGen true 10 10 0 9 15 20 (outpamWidth 0 9)
        (fun _ _ => false))).length = 11 ∧
    outpamHeight 15 20 = 6 ∧ (11 : Int) ≠ (6 : Int) := by decide

/-! ## Claim C8 -/

/-- For the full-image rectangle every output plan cell is the copy cell of
its own column. -/
lemma outputPointers_full (cols o : Int) (hc : 0 < cols) (h0 : 0 ≤ o) (h1 : o < cols) :
    outputPointers cols (outpamWidth 0 (cols - 1)) 0 (cols - 1) o = .copy o := by
  unfold outpamWidth
  rw [outputPointers_eq cols 0 (cols - 1) o hc (by omega) h0 (by omega),
    if_pos ⟨by omega, by omega⟩, zero_add]

/-- For the full-image rectangle every input plan cell feeds the output. -/
lemma inputPointers_full (cols c : Int) (hc : 0 < cols) (h0 : 0 ≤ c) (h1 : c < cols) :
    inputPointers cols 0 (cols - 1) c = .copyTo c := by
  simp only [inputPointers, cMax, cMin]
  split_ifs <;> first | (rw [sub_zero]) | (exfalso; omega)

/-- When every row of the list lies inside [toprow, bottomrow], the general
loop writes one cut row per input row. -/
lemma writesOf_genLoop_all {α : Type} (black : α)
    (inW outW lc rc tr br : Int) (img : Int → Int → α) (rs : List Nat)
    (hall : ∀ r ∈ rs, tr ≤ (r : Int) ∧ (r : Int) ≤ br) :
    writesOf (genLoop black inW outW lc rc tr br img rs) =
      rs.map (fun (r : Nat) => outRowGen black inW outW lc rc (img (r : Int))) := by
  induction rs with
  | nil => rfl
  | cons r rest ih =>
      rw [genLoop, if_pos (hall r (by simp)), writesOf_append,
        ih (fun x hx => hall x (by simp [hx]))]
      rfl

/-- The full-image output row is the input row itself. -/
lemma outRowGen_full {α : Type} (black : α) (cols : Int) (row : Int → α) (hc : 0 < cols) :
    outRowGen black cols (outpamWidth 0 (cols - 1)) 0 (cols - 1) row =
      (List.range cols.toNat).map (fun (c : Nat) => some (row (c : Int))) := by
  unfold outRowGen
  refine List.ext_getElem ?_ fun i hi1 hi2 => ?_
  · simp only [List.length_map, List.length_range, outpamWidth]
    omega
  · simp only [List.length_map, List.length_range, outpamWidth] at hi1 hi2
    simp only [List.getElem_map, List.getElem_range]
    rw [outputPointers_full cols (i : Int) hc (by omega) (by omega)]

/-- C8: cutting the full-image rectangle — which is exactly what resolving
all six arguments unspecified yields — reproduces the input: the general
path writes each input row unchanged, with no black-fill cell in the output
plan, no discarded cell in the input plan, and no padding rows. -/
theorem C8_full_cut_identity {α : Type} (black : α) (cols rows : Int)
    (img : Int → Int → α) (hc : 0 < cols) (hr : 0 < rows) :
    computeCutBounds cols rows UNSPEC UNSPEC UNSPEC UNSPEC UNSPEC UNSPEC =
      .ok ⟨0, cols - 1, 0, rows - 1⟩ ∧
    writesOf (extractRowsGen black cols rows 0 (cols - 1) 0 (rows - 1)
        (outpamWidth 0 (cols - 1)) img) =
      (List.range rows.toNat).map (fun (r : Nat) =>
        (List.range cols.toNat).map (fun (c : Nat) => some (img (r : Int) (c : Int)))) ∧
    (∀ o : Int, 0 ≤ o → o < cols →
      outputPointers cols (outpamWidth 0 (cols - 1)) 0 (cols - 1) o = .copy o) ∧
    (∀ c : Int, 0 ≤ c → c < cols → inputPointers cols 0 (cols - 1) c = .copyTo c) := by
  refine ⟨?_, ?_, fun o h0 h1 => outputPointers_full cols o hc h0 h1,
    fun c h0 h1 => inputPointers_full cols c hc h0 h1⟩
  · norm_num [computeCutBounds, cutBoundsHoriz, cutBoundsVert, UNSPEC]
  · unfold extractRowsGen
    rw [if_neg (by omega), if_neg (by omega), writesOf_append, writesOf_append,
      writesOf_genLoop_all black cols (outpamWidth 0 (cols - 1)) 0 (cols - 1) 0 (rows - 1)
        img (List.range rows.toNat)
        (fun r hrr => by have := List.mem_range.mp hrr; omega)]
    simp only [writesOf, List.nil_append, List.append_nil]
    exact List.map_congr_left fun r hrr => outRowGen_full black cols (img (r : Int)) hc

/-- C8 witness: a 2 by 2 image. -/
theorem C8_witness :
    computeCutBounds 2 2 UNSPEC UNSPEC UNSPEC UNSPEC UNSPEC UNSPEC =
      .ok ⟨0, 2 - 1, 0, 2 - 1⟩ ∧
    writesOf (extractRowsGen true 2 2 0 (2 - 1) 0 (2 - 1) (outpamWidth 0 (2 - 1))
        (fun r c => decide (r = c))) =
      (List.range (2 : Int).toNat).map (fun (r : Nat) =>
        (List.range (2 : Int).toNat).map (fun (c : Nat) => some (decide ((r : Int) = (c : Int))))) ∧
    (∀ o : Int, 0 ≤ o → o < 2 →
      outputPointers 2 (outpamWidth 0 (2 - 1)) 0 (2 - 1) o = .copy o) ∧
    (∀ c : Int, 0 ≤ c → c < 2 → inputPointers 2 0 (2 - 1) c = .copyTo c) :=
  C8_full_cut_identity true 2 2 (fun r c => decide (r = c)) (by norm_num) (by norm_num)

end Pamcut
